import Mathlib

/-
A shallow embedding of the cadss cache simulator (src/cache_simulator/cache.c)
and branch predictor (src/branch_simulator/branch.c), together with proofs
about the properties stated in the specification.

Machine integers are modelled as Nat (for the C unsigned types: addresses,
tags, uint8 counters) and Int (for the C int / int64_t fields).  The
fixed-size line array of a set is a Lean list whose length plays the role of
lines_per_set; C loops over `i < lines_per_set` become structural recursion
over that list.  The `data` byte buffer of a cache line is allocated but
never read or written by the simulator logic, so it is omitted.  The
unbounded `while (1)` loop of the RRIP victim search is modelled with
explicit fuel; `none` means the loop has not produced an answer within the
given fuel (for no amount of fuel, in the non-terminating cases proved
below).  Assertion failures and `exit(EXIT_FAILURE)` paths are modelled as
`none` results.
-/

/-- One cache line, from `cache_line` in cache.c.  `tag` is the uint64 tag,
`LRU_counter` and `RRPV` are C ints.  The `data` pointer is omitted: it is
allocated and freed but never consulted by the simulator logic. -/
structure cache_line where
  valid : Bool
  dirty : Bool
  tag : Nat
  LRU_counter : Int
  RRPV : Int
  deriving DecidableEq, Repr, Inhabited

/-- The construction-time configuration of the cache (the module-level
globals of cache.c).  `lines_per_set` is implicit as the length of each
set's line list. -/
structure Config where
  num_sets : Nat
  block_size : Nat
  RRPV_bits : Nat
  use_RRIP : Bool
  deriving DecidableEq, Repr

/-- `get_set_index` from cache.c: `(address / block_size) % num_sets`. -/
def get_set_index (cfg : Config) (address : Nat) : Nat :=
  (address / cfg.block_size) % cfg.num_sets

/-- `get_tag` from cache.c: `address / (block_size * num_sets)`. -/
def get_tag (cfg : Config) (address : Nat) : Nat :=
  address / (cfg.block_size * cfg.num_sets)

/-- The block alignment computed in `memoryRequest`:
`op->memAddress & ~(block_size - 1)`.  In C the int `~(block_size - 1)` is
converted to uint64, giving the 64-bit mask `2^64 - block_size`. -/
def blockAlign (cfg : Config) (memAddress : Nat) : Nat :=
  memAddress &&& (2 ^ 64 - cfg.block_size)

/-- The body of the loop in `update_LRU`: a line is incremented when it is
valid and its counter is strictly below the accessed way's counter. -/
def bump (thresh : Int) (l : cache_line) : cache_line :=
  if l.valid = true ∧ l.LRU_counter < thresh then
    { l with LRU_counter := l.LRU_counter + 1 }
  else l

/-- `update_LRU` from cache.c.  The loop guard compares each line against
`set->lines[way].LRU_counter`; the loop never changes that value (the way
itself fails its own strict comparison), so it is read once as `thresh`.
After the loop the accessed way's counter is reset to 0. -/
def update_LRU (lines : List cache_line) (way : Nat) : List cache_line :=
  let thresh := (lines.getD way default).LRU_counter
  let aged := lines.map (bump thresh)
  aged.set way { aged.getD way default with LRU_counter := 0 }

/-- The maximum RRPV value `(1 << RRPV_bits) - 1` from cache.c. -/
def rripMax (B : Nat) : Int := 2 ^ B - 1

/-- The increment loop of `update_RRIP` on a miss, carrying the running C
loop index: every valid line other than `way` whose RRPV is below the
maximum is incremented. -/
def incrOthers (B : Nat) (way : Nat) : Nat → List cache_line → List cache_line
  | _, [] => []
  | i, l :: ls =>
    (if i ≠ way ∧ l.valid = true ∧ l.RRPV < rripMax B then
       { l with RRPV := l.RRPV + 1 }
     else l) :: incrOthers B way (i + 1) ls

/-- `update_RRIP` from cache.c: on a hit the accessed line's RRPV becomes 0;
on a miss the way's RRPV becomes `(1 << (RRPV_bits - 1)) - 1` and every
other valid line's RRPV is incremented while below the maximum. -/
def update_RRIP (B : Nat) (lines : List cache_line) (way : Nat) (hit : Bool) :
    List cache_line :=
  if hit then
    lines.set way { lines.getD way default with RRPV := 0 }
  else
    let filled := lines.set way { lines.getD way default with RRPV := 2 ^ (B - 1) - 1 }
    incrOthers B way 0 filled

/-- The LRU arm of `find_victim` in cache.c, carrying the loop index and the
running `max_lru` / `victim` accumulators (both start at -1).  The scan
returns the first invalid line immediately; otherwise it keeps the first
line attaining the largest `LRU_counter`. -/
def fv_LRU : List cache_line → Nat → Int → Int → Int
  | [], _, _, victim => victim
  | l :: ls, i, max_lru, victim =>
    if l.valid = false then (i : Int)
    else if l.LRU_counter > max_lru then fv_LRU ls (i + 1) l.LRU_counter (i : Int)
    else fv_LRU ls (i + 1) max_lru victim

/-- The LRU arm of `find_victim` from cache.c. -/
def find_victim_LRU (lines : List cache_line) : Int :=
  fv_LRU lines 0 (-1) (-1)

/-- The inner scan of the RRIP arm of `find_victim`: the first line (valid
or not) whose RRPV equals the maximum `(1 << RRPV_bits) - 1`. -/
def scanMax (B : Nat) : Nat → List cache_line → Option Nat
  | _, [] => none
  | i, l :: ls => if l.RRPV = rripMax B then some i else scanMax B (i + 1) ls

/-- The aging pass of the RRIP arm of `find_victim`: every valid line's RRPV
is incremented (with no saturation inside this loop). -/
def ageAll (lines : List cache_line) : List cache_line :=
  lines.map (fun l => if l.valid = true then { l with RRPV := l.RRPV + 1 } else l)

/-- The RRIP arm of `find_victim` from cache.c: the `while (1)` loop
alternating the scan and the aging pass, modelled with fuel.  `none` means
the loop has not returned within `fuel` iterations.  On success the victim
index is returned together with the aged line state. -/
def find_victim_RRIP (B : Nat) : Nat → List cache_line → Option (Nat × List cache_line)
  | 0, _ => none
  | fuel + 1, lines =>
    match scanMax B 0 lines with
    | some i => some (i, lines)
    | none => find_victim_RRIP B fuel (ageAll lines)

/-- `find_victim` from cache.c, dispatching on the policy.  The LRU arm
returns -1 only when the scan never selects a line; the C code would then
index the line array out of bounds, modelled as `none`. -/
def find_victim (cfg : Config) (fuel : Nat) (lines : List cache_line) :
    Option (Nat × List cache_line) :=
  if cfg.use_RRIP then find_victim_RRIP cfg.RRPV_bits fuel lines
  else
    let v := find_victim_LRU lines
    if v < 0 then none else some (v.toNat, lines)

/-- Modelled from the spec: the memory-operation kind of a trace record
(trace.h is not part of this repository); the cache only distinguishes
`MEM_LOAD` from the rest. -/
inductive mem_op_type
  | MEM_LOAD
  | MEM_STORE
  deriving DecidableEq, Repr

/-- Modelled from the spec: the fields of a `trace_op` record consumed by
the two simulators (trace.h is not part of this repository): the operation
kind and memory address for the cache, the branch PC and actual next PC for
the branch predictor. -/
structure trace_op where
  op : mem_op_type
  memAddress : Nat
  pcAddress : Nat
  nextPCAddress : Nat
  deriving DecidableEq, Repr

/-- `pendingRequest` from cache.c.  The `callback` function pointer is
modelled by an identity `callbackId`; the `next` pointer becomes list
structure. -/
structure pendingRequest where
  tag : Int
  addr : Nat
  processorNum : Int
  callbackId : Nat
  deriving DecidableEq, Repr

/-- The mutable state of the cache module: the per-set line arrays and the
two request queues (`readyReq`, `pendReq`), each list head being the most
recently prepended entry, as in the C linked lists. -/
structure CacheState where
  sets : List (List cache_line)
  readyReq : List pendingRequest
  pendReq : List pendingRequest
  deriving DecidableEq, Repr

/-- The hit scan of `memoryRequest`: the first way that is valid and whose
tag equals the computed tag, carrying the C loop index. -/
def findHit (cache_tag : Nat) : Nat → List cache_line → Option Nat
  | _, [] => none
  | way, l :: ls =>
    if l.valid = true ∧ l.tag = cache_tag then some way
    else findHit cache_tag (way + 1) ls

/-- The set-local part of `memoryRequest`: the hit test, and on a miss the
victim selection, the fill (`valid = true`, tag overwrite) and the
replacement-policy update.  Returns the hit flag and the new line state, or
`none` when `find_victim` does not return. -/
def accessSet (cfg : Config) (fuel : Nat) (cache_tag : Nat) (lines : List cache_line) :
    Option (Bool × List cache_line) :=
  match findHit cache_tag 0 lines with
  | some way =>
    some (true,
      if cfg.use_RRIP then update_RRIP cfg.RRPV_bits lines way true
      else update_LRU lines way)
  | none =>
    match find_victim cfg fuel lines with
    | none => none
    | some (evict_way, aged) =>
      let filled := aged.set evict_way
        { aged.getD evict_way default with valid := true, tag := cache_tag }
      some (false,
        if cfg.use_RRIP then update_RRIP cfg.RRPV_bits filled evict_way false
        else update_LRU filled evict_way)

/-- `memoryRequest` from cache.c.  `perm` is the uint8 answer of the
external coherence component's `permReq`; the new request record is
prepended to `readyReq` when `perm = 1` and to `pendReq` otherwise.
Returns the hit flag (observable through the replacement metadata) and the
new cache state. -/
def memoryRequest (cfg : Config) (fuel : Nat) (op : trace_op) (processorNum : Int)
    (tag : Int) (callbackId : Nat) (perm : Nat) (st : CacheState) :
    Option (Bool × CacheState) :=
  let addr := blockAlign cfg op.memAddress
  let set_index := get_set_index cfg addr
  let cache_tag := get_tag cfg addr
  match accessSet cfg fuel cache_tag (st.sets.getD set_index []) with
  | none => none
  | some (hit, newLines) =>
    let pr : pendingRequest := ⟨tag, addr, processorNum, callbackId⟩
    some (hit,
      if perm = 1 then
        { st with sets := st.sets.set set_index newLines, readyReq := pr :: st.readyReq }
      else
        { st with sets := st.sets.set set_index newLines, pendReq := pr :: st.pendReq })

/-- Modelled from the spec: the `DATA_RECV` event kind of the external
coherence component (coherence.h is not part of this repository).  Only its
(in)equality with the incoming event kind is observable here, so the
numeric value is immaterial. -/
def DATA_RECV : Int := 2

/-- The pending-queue search of `coherCallback`: remove the first entry
matching `(processorNum, addr)`, returning it and the remaining queue.
The C code special-cases the head and then walks the list with a trailing
pointer; both cases remove exactly the first match. -/
def removeFirstMatch (processorNum : Int) (addr : Nat) :
    List pendingRequest → Option (pendingRequest × List pendingRequest)
  | [] => none
  | r :: rs =>
    if r.processorNum = processorNum ∧ r.addr = addr then some (r, rs)
    else
      match removeFirstMatch processorNum addr rs with
      | none => none
      | some (m, rest) => some (m, r :: rest)

/-- `coherCallback` from cache.c.  The entry assertions
(`pendReq != NULL`, `processorNum < processorCount`) precede the event-kind
test; an assertion failure is modelled as `none`.  A non-`DATA_RECV` event
is then ignored.  For a `DATA_RECV` event the first matching pending entry
is moved to the head of the ready queue; finding no match is an assertion
failure. -/
def coherCallback (processorCount : Int) (type : Int) (processorNum : Int) (addr : Nat)
    (st : CacheState) : Option CacheState :=
  if st.pendReq = [] then none
  else if ¬ processorNum < processorCount then none
  else if type ≠ DATA_RECV then some st
  else
    match removeFirstMatch processorNum addr st.pendReq with
    | none => none
    | some (r, rest) => some { st with pendReq := rest, readyReq := r :: st.readyReq }

/-- `tick` from cache.c: every entry of the ready queue has its callback
invoked with `(processorNum, tag)` in list order and is freed, and the
ready queue is cleared.  The returned list records the callback
invocations `(callbackId, processorNum, tag)` in order; the forwarded tick
of the coherence component is external. -/
def tick (st : CacheState) : List (Nat × Int × Int) × CacheState :=
  (st.readyReq.map (fun r => (r.callbackId, r.processorNum, r.tag)),
   { st with readyReq := [] })

/-- Tag-uniqueness invariant of a set: at most one line holds a given tag
with `valid = true`. -/
def setInv (lines : List cache_line) : Prop :=
  ∀ i < lines.length, ∀ j < lines.length, i ≠ j →
    (lines.getD i default).valid = true → (lines.getD j default).valid = true →
    (lines.getD i default).tag ≠ (lines.getD j default).tag

/-- Tag-uniqueness invariant of the whole cache. -/
def cacheInv (st : CacheState) : Prop :=
  ∀ s ∈ st.sets, setInv s

/-- The replacement-metadata-insensitive projection of a line: validity and
tag, the only fields consulted by the hit scan and the tag-uniqueness
invariant. -/
def proj (l : cache_line) : Bool × Nat := (l.valid, l.tag)

/-- Construction-time configuration of the branch predictor (branch.c):
`predictorSize` and `bhrSize` are the respective bit widths, and
`predictorModel` selects the 2-bit counter (0) or GSELECT (2) model. -/
structure BranchConfig where
  predictorSize : Nat
  bhrSize : Nat
  predictorModel : Nat
  deriving DecidableEq, Repr

/-- The mutable state of the branch predictor: the table of 2-bit
saturating counters and the branch history register. -/
structure BranchState where
  predictorTable : List Nat
  bhr : Nat
  deriving DecidableEq, Repr

/-- The state after `init` in branch.c: `1 << predictorSize` counters, each
initialized to 1 (weakly not taken), and a zero BHR. -/
def branchInitState (cfg : BranchConfig) : BranchState :=
  ⟨List.replicate (2 ^ cfg.predictorSize) 1, 0⟩

/-- The index computation of `branchRequest` in branch.c: the masked PC in
the counter-only model, the PC/BHR concatenation in the GSELECT model
(where `bhrSize > predictorSize` is a fatal configuration error, modelled
as `none`), and 0 for any other model value. -/
def predIndex (cfg : BranchConfig) (bhr : Nat) (op : trace_op) : Option Nat :=
  let pc := op.pcAddress >>> 3
  let pcIndexBits := pc &&& (2 ^ cfg.predictorSize - 1)
  let bhrMask := 2 ^ cfg.bhrSize - 1
  if cfg.predictorModel = 0 then some pcIndexBits
  else if cfg.predictorModel = 2 then
    if cfg.bhrSize > cfg.predictorSize then none
    else
      let bhrBits := bhr &&& bhrMask
      let pcBits := pcIndexBits &&& (2 ^ (cfg.predictorSize - cfg.bhrSize) - 1)
      some ((pcBits <<< cfg.bhrSize) ||| bhrBits)
  else some 0

/-- `branchRequest` from branch.c: predict from the MSB of the indexed
2-bit counter (taken means the trace's next PC, not taken means PC + 4),
then update the counter by the actual outcome with saturation at 0 and 3,
and shift the outcome into the BHR in the GSELECT model.  Returns the
predicted address and the new predictor state; the fatal GSELECT
configuration error is `none`. -/
def branchRequest (cfg : BranchConfig) (op : trace_op) (st : BranchState) :
    Option (Nat × BranchState) :=
  match predIndex cfg st.bhr op with
  | none => none
  | some index =>
    let counter := st.predictorTable.getD index 0
    let prediction := (counter >>> 1) &&& 1
    let predAddress := if prediction ≠ 0 then op.nextPCAddress else op.pcAddress + 4
    let actualOutcome := decide (op.nextPCAddress ≠ op.pcAddress + 4)
    let table1 :=
      if actualOutcome then
        if counter < 3 then st.predictorTable.set index (counter + 1) else st.predictorTable
      else
        if counter > 0 then st.predictorTable.set index (counter - 1) else st.predictorTable
    let bhr1 :=
      if cfg.predictorModel = 2 ∧ cfg.bhrSize > 0 then
        ((st.bhr <<< 1) ||| (if actualOutcome then 1 else 0)) &&& (2 ^ cfg.bhrSize - 1)
      else st.bhr
    some (predAddress, ⟨table1, bhr1⟩)

/-- A single invalid, zeroed cache line, the calloc-initialized state of
every line after `init` in cache.c. -/
def line0 : cache_line := ⟨false, false, 0, 0, 0⟩

/-- The geometry of end-to-end scenario A: one set, block size 64, LRU. -/
def cfgA : Config := ⟨1, 64, 0, false⟩

/-- The freshly constructed one-set two-way cache of scenario A. -/
def stA0 : CacheState := ⟨[[line0, line0]], [], []⟩

/-- A load at the given memory address (the PC fields are irrelevant to the
cache). -/
def opAt (a : Nat) : trace_op := ⟨mem_op_type.MEM_LOAD, a, 0, 0⟩

/-- Issue a sequence of loads from processor 0 with every permission
granted immediately, collecting the hit/miss outcomes. -/
def runSeq (cfg : Config) (addrs : List Nat) (st : CacheState) :
    Option (List Bool × CacheState) :=
  match addrs with
  | [] => some ([], st)
  | a :: rest =>
    match memoryRequest cfg 1 (opAt a) 0 0 0 1 st with
    | none => none
    | some (hit, st1) =>
      match runSeq cfg rest st1 with
      | none => none
      | some (hits, st2) => some (hit :: hits, st2)

/-- The branch-predictor configuration of the scenario: predictorSize 4,
counter-only model. -/
def bCfg : BranchConfig := ⟨4, 0, 0⟩

/-- A branch record at PC `pc` whose actual next PC is `tgt` (the memory
fields are irrelevant to the predictor). -/
def bOp (pc tgt : Nat) : trace_op := ⟨mem_op_type.MEM_LOAD, 0, pc, tgt⟩

/-- Issue a sequence of branch records, collecting the predicted
addresses. -/
def runBranches (cfg : BranchConfig) (ops : List trace_op) (st : BranchState) :
    Option (List Nat × BranchState) :=
  match ops with
  | [] => some ([], st)
  | o :: rest =>
    match branchRequest cfg o st with
    | none => none
    | some (pred, st1) =>
      match runBranches cfg rest st1 with
      | none => none
      | some (preds, st2) => some (pred :: preds, st2)

/-- A state with one pending request, used to exhibit the non-`DATA_RECV`
behavior of `coherCallback` with a non-empty pending queue. -/
def stPend : CacheState := ⟨[], [], [⟨0, 0, 0, 0⟩]⟩

/-- Pointwise equality of two line lists under `proj`: same length, and the
same validity and tag at every position.  Replacement-metadata updates
preserve it. -/
def projEq (l1 l2 : List cache_line) : Prop :=
  l1.length = l2.length ∧
    ∀ i < l1.length, proj (l1.getD i default) = proj (l2.getD i default)

/-- A concrete two-way set, both ways valid with distinct tags and recency
counters 1 and 0. -/
def linesW6 : List cache_line := [⟨true, false, 5, 1, 0⟩, ⟨true, false, 9, 0, 0⟩]

/-- A concrete three-way set for the RRIP update: two valid lines with
RRPV 1 and 3 and one invalid line, under RRPV_bits 2. -/
def linesW7 : List cache_line :=
  [⟨true, false, 0, 0, 1⟩, ⟨false, false, 0, 0, 3⟩, ⟨true, false, 1, 0, 3⟩]

/-- The request record created by a not-granted load at address 0 from
processor 0 with tag 7 and callback 3. -/
def prW : pendingRequest := ⟨7, 0, 0, 3⟩

/-- The state after that not-granted load on the fresh scenario-A cache:
block 0 filled, the request pending. -/
def stMiss1 : CacheState := ⟨[[⟨true, false, 0, 0, 0⟩, line0]], [], [prW]⟩

/-- The state after a granted load at address 0 on the scenario-A cache:
block 0 resident, the request ready. -/
def stMiss1r : CacheState := ⟨[[⟨true, false, 0, 0, 0⟩, line0]], [⟨0, 0, 0, 0⟩], []⟩

/-- A scenario-A cache state in which block 0 is already resident and both
queues are empty, so a load of address 0 hits. -/
def stHit0 : CacheState := ⟨[[⟨true, false, 0, 0, 0⟩, line0]], [], []⟩

/-- Helper: `getD` out of range returns the default. -/
theorem getD_of_le {α : Type _} (l : List α) (i : Nat) (d : α) (h : l.length ≤ i) :
    l.getD i d = d := by
  induction l generalizing i with
  | nil => simp [List.getD]
  | cons a t ih =>
    cases i with
    | zero => simp at h
    | succ n => simpa using ih n (by simpa using h)

/-- Helper: `getD` after `set` at the written index. -/
theorem getD_set_same {α : Type _} (l : List α) (i : Nat) (v d : α) (h : i < l.length) :
    (l.set i v).getD i d = v := by
  induction l generalizing i with
  | nil => simp at h
  | cons a t ih =>
    cases i with
    | zero => simp
    | succ n => simpa using ih n (by simpa using h)

/-- Helper: `getD` after `set` at a different index. -/
theorem getD_set_other {α : Type _} (l : List α) (i j : Nat) (v d : α) (h : i ≠ j) :
    (l.set i v).getD j d = l.getD j d := by
  induction l generalizing i j with
  | nil => simp
  | cons a t ih =>
    cases i with
    | zero =>
      cases j with
      | zero => exact absurd rfl h
      | succ m => simp
    | succ n =>
      cases j with
      | zero => simp
      | succ m => simpa using ih n m (by omega)

/-- Helper: `getD` after `set`, combined form for an in-range index. -/
theorem getD_set_lt {α : Type _} (l : List α) (e j : Nat) (v d : α) (hj : j < l.length) :
    (l.set e v).getD j d = if j = e then v else l.getD j d := by
  by_cases h : j = e
  · subst h; rw [if_pos rfl]; exact getD_set_same l j v d hj
  · rw [if_neg h]; exact getD_set_other l e j v d (fun he => h he.symm)

/-- Helper: `getD` through `map` for an in-range index. -/
theorem getD_map_of_lt {α β : Type _} (f : α → β) (l : List α) (i : Nat) (d : α) (e : β)
    (h : i < l.length) : (l.map f).getD i e = f (l.getD i d) := by
  induction l generalizing i with
  | nil => simp at h
  | cons a t ih =>
    cases i with
    | zero => simp
    | succ n => simpa using ih n (by simpa using h)

/-- Helper: `getD` of `replicate` for an in-range index. -/
theorem getD_replicate_of_lt {α : Type _} (n : Nat) (a d : α) (i : Nat) (h : i < n) :
    (List.replicate n a).getD i d = a := by
  induction n generalizing i with
  | zero => omega
  | succ m ih =>
    cases i with
    | zero => simp [List.replicate]
    | succ k => simpa [List.replicate] using ih k (by omega)

/-- Helper: an in-range `getD` is a member of the list. -/
theorem getD_mem_of_lt {α : Type _} (l : List α) (i : Nat) (d : α) (h : i < l.length) :
    l.getD i d ∈ l := by
  induction l generalizing i with
  | nil => simp at h
  | cons a t ih =>
    cases i with
    | zero => simp
    | succ n => simpa using Or.inr (ih n (by simpa using h))

/-- Claim C1: on the freshly constructed 1-set, 2-way, block-64 LRU cache,
the accesses 0, 64, 0, 128 (same processor, every permission granted)
produce outcomes miss, miss, hit, miss, but the final set holds the blocks
at 128 (tag 2, way 0) and 64 (tag 1, way 1): the fourth access evicts
block 0, not block 64 as the specification states, because `update_LRU`
never increments any counter when the accessed way's previous counter is
0, so all recencies stay 0 and the miss victim is way 0. -/
theorem C1_scenarioA_evicts_block0 :
    (runSeq cfgA [0, 64, 0, 128] stA0).map (fun r => (r.1, r.2.sets)) =
      some ([false, false, true, false],
        [[⟨true, false, 2, 0, 0⟩, ⟨true, false, 1, 0, 0⟩]]) := by decide

/-- Claim C2 (failing input): on a two-line set with both lines invalid and
RRPV 0 — the state of every freshly initialized RRIP set — with
RRPV_bits = 1, the RRIP victim search never returns: no line has the
maximum RRPV 1, and the aging pass increments only valid lines, of which
there are none, so the `while (1)` loop makes no progress and no amount of
fuel yields a victim. -/
theorem C2_rrip_all_invalid_never_returns :
    ∀ fuel : Nat, find_victim_RRIP 1 fuel [line0, line0] = none := by
  intro fuel
  induction fuel with
  | zero => rfl
  | succ n ih =>
    have hscan : scanMax 1 0 [line0, line0] = none := by decide
    have hage : ageAll [line0, line0] = [line0, line0] := by decide
    calc find_victim_RRIP 1 (n + 1) [line0, line0]
        = find_victim_RRIP 1 n (ageAll [line0, line0]) := by
          simp [find_victim_RRIP, hscan]
      _ = none := by rw [hage]; exact ih

/-- Claim C4 (counterexample): a notification whose kind differs from
DATA_RECV, delivered while the pending queue is empty, trips the entry
assertion `pendReq != NULL` of `coherCallback` (modelled as `none`): the
handler does not ignore it silently in that state. -/
theorem C4_counterexample_empty_pend_asserts :
    coherCallback 1 (DATA_RECV + 1) 0 0 ⟨[], [], []⟩ = none := by decide

/-- Claim C4 (amended): a notification whose kind is not DATA_RECV leaves
the entire cache state unchanged and signals no error, provided the
pending queue is non-empty and the processor id is below processorCount
(the entry assertions of `coherCallback`, which precede the event-kind
test). -/
theorem C4_nonDataRecv_ignored (processorCount type processorNum : Int) (addr : Nat)
    (st : CacheState) (hne : st.pendReq ≠ []) (hp : processorNum < processorCount)
    (htype : type ≠ DATA_RECV) :
    coherCallback processorCount type processorNum addr st = some st := by
  unfold coherCallback
  simp [hne, hp, htype]

/-- Witness for C4 at a concrete state with one pending request. -/
theorem C4_nonDataRecv_ignored_witness :
    coherCallback 1 3 0 0 stPend = some stPend :=
  C4_nonDataRecv_ignored 1 3 0 0 stPend (by decide) (by decide) (by decide)

/-- Claim C5 (counterexample): with predictorSize 4, the counter-only
model, PC 0 and taken target 100, three taken encounters from the initial
table are predicted 4, 100, 100 — taken already on the second encounter,
where the counter has reached 2 and its MSB is set — not the claimed
not-taken, not-taken, taken sequence 4, 4, 100. -/
theorem C5_counterexample_second_is_taken :
    (runBranches bCfg [bOp 0 100, bOp 0 100, bOp 0 100] (branchInitState bCfg)).map
        Prod.fst = some [4, 100, 100] ∧
      some [4, 100, 100] ≠ some [0 + 4, 0 + 4, (100 : Nat)] := by decide


/-- Helper: one `branchRequest` step in the counter-only 16-entry geometry
of the scenario, expressed by the current counter value at the PC's slot:
the prediction is taken exactly when the counter's MSB is set, and a taken
outcome increments the counter, saturating at 3. -/
theorem branchStep_model0 (pc tgt : Nat) (tbl : List Nat) (c b : Nat)
    (h : tgt ≠ pc + 4) (hc : tbl.getD ((pc >>> 3) &&& 15) 0 = c) :
    branchRequest bCfg (bOp pc tgt) ⟨tbl, b⟩ =
      some ((if (c >>> 1) &&& 1 ≠ 0 then tgt else pc + 4),
            ⟨if c < 3 then tbl.set ((pc >>> 3) &&& 15) (c + 1) else tbl, b⟩) := by
  have h15 : (2 : Nat) ^ 4 - 1 = 15 := by norm_num
  have hidx : predIndex bCfg b ⟨mem_op_type.MEM_LOAD, 0, pc, tgt⟩ =
      some ((pc >>> 3) &&& 15) := by
    simp [predIndex, bCfg, h15]
  have hnb : ¬(bCfg.predictorModel = 2 ∧ bCfg.bhrSize > 0) := by norm_num [bCfg]
  simp only [List.getD_eq_getElem?_getD] at hc
  simp [branchRequest, bOp, hidx, hnb, hc, h]

/-- Claim C5 (amended): with predictorSize 4 and the counter-only model, a
branch at a fixed PC that is actually taken on three successive
encounters, starting from the initial weakly-not-taken counter value 1, is
predicted not-taken on the first encounter and taken on the second and
third, the counter following the path 1 to 2 to 3 (the counter's MSB is
already set once it reaches 2, so the second prediction is taken). -/
theorem C5_counter_path (pc tgt : Nat) (h : tgt ≠ pc + 4) :
    ∃ st1 st2 st3 : BranchState,
      branchRequest bCfg (bOp pc tgt) (branchInitState bCfg) = some (pc + 4, st1) ∧
      st1.predictorTable.getD ((pc >>> 3) &&& 15) 0 = 2 ∧
      branchRequest bCfg (bOp pc tgt) st1 = some (tgt, st2) ∧
      st2.predictorTable.getD ((pc >>> 3) &&& 15) 0 = 3 ∧
      branchRequest bCfg (bOp pc tgt) st2 = some (tgt, st3) ∧
      st3.predictorTable.getD ((pc >>> 3) &&& 15) 0 = 3 := by
  have hidxlt : (pc >>> 3) &&& 15 < 16 := by
    have h2p := Nat.and_lt_two_pow (pc >>> 3) (show (15 : Nat) < 2 ^ 4 by norm_num)
    norm_num at h2p
    exact h2p
  have hinit : branchInitState bCfg = ⟨List.replicate 16 1, 0⟩ := by
    norm_num [branchInitState, bCfg]
  have hlen1 : ((List.replicate (16 : Nat) (1 : Nat)).set ((pc >>> 3) &&& 15) 2).length
      = 16 := by simp
  have hc1 : (List.replicate (16 : Nat) (1 : Nat)).getD ((pc >>> 3) &&& 15) 0 = 1 :=
    getD_replicate_of_lt 16 1 0 _ hidxlt
  have hc2 : ((List.replicate (16 : Nat) (1 : Nat)).set ((pc >>> 3) &&& 15) 2).getD
      ((pc >>> 3) &&& 15) 0 = 2 :=
    getD_set_same _ _ 2 0 (by simpa using hidxlt)
  have hc3 : (((List.replicate (16 : Nat) (1 : Nat)).set ((pc >>> 3) &&& 15) 2).set
      ((pc >>> 3) &&& 15) 3).getD ((pc >>> 3) &&& 15) 0 = 3 :=
    getD_set_same _ _ 3 0 (by rw [hlen1]; exact hidxlt)
  refine ⟨⟨(List.replicate 16 1).set ((pc >>> 3) &&& 15) 2, 0⟩,
          ⟨((List.replicate 16 1).set ((pc >>> 3) &&& 15) 2).set ((pc >>> 3) &&& 15) 3, 0⟩,
          ⟨((List.replicate 16 1).set ((pc >>> 3) &&& 15) 2).set ((pc >>> 3) &&& 15) 3, 0⟩,
          ?_, hc2, ?_, hc3, ?_, hc3⟩
  · rw [hinit]
    simpa using branchStep_model0 pc tgt (List.replicate 16 1) 1 0 h hc1
  · simpa using branchStep_model0 pc tgt _ 2 0 h hc2
  · simpa using branchStep_model0 pc tgt _ 3 0 h hc3

/-- Witness for C5 at PC 0 with taken target 100. -/
theorem C5_counter_path_witness :
    ∃ st1 st2 st3 : BranchState,
      branchRequest bCfg (bOp 0 100) (branchInitState bCfg) = some (0 + 4, st1) ∧
      st1.predictorTable.getD ((0 >>> 3) &&& 15) 0 = 2 ∧
      branchRequest bCfg (bOp 0 100) st1 = some (100, st2) ∧
      st2.predictorTable.getD ((0 >>> 3) &&& 15) 0 = 3 ∧
      branchRequest bCfg (bOp 0 100) st2 = some (100, st3) ∧
      st3.predictorTable.getD ((0 >>> 3) &&& 15) 0 = 3 :=
  C5_counter_path 0 100 (by decide)

/-- Claim C10: whenever `branchRequest` computes a predictor-table index —
always in the counter-only model, and exactly when bhrSize ≤ predictorSize
in the GSELECT model, whose violation is a fatal configuration error — the
index is strictly below `2 ^ predictorSize`, the number of counters the
init code allocates, so the table read and the counter update are in
bounds. -/
theorem C10_pred_index_in_bounds (cfg : BranchConfig) (bhr : Nat) (op : trace_op)
    (i : Nat) (h : predIndex cfg bhr op = some i) :
    i < 2 ^ cfg.predictorSize ∧
      (branchInitState cfg).predictorTable.length = 2 ^ cfg.predictorSize := by
  refine ⟨?_, by simp [branchInitState]⟩
  have hpos : (0 : Nat) < 2 ^ cfg.predictorSize := Nat.pos_pow_of_pos _ (by norm_num)
  by_cases h0 : cfg.predictorModel = 0
  · simp [predIndex, h0] at h
    subst h
    exact Nat.mod_lt _ hpos
  · by_cases h2 : cfg.predictorModel = 2
    · by_cases hb : cfg.bhrSize > cfg.predictorSize
      · simp [predIndex, h0, h2, hb] at h
      · simp [predIndex, h0, h2, hb] at h
        subst h
        have hble : cfg.bhrSize ≤ cfg.predictorSize := Nat.le_of_not_lt hb
        have hsub : (0 : Nat) < 2 ^ (cfg.predictorSize - cfg.bhrSize) :=
          Nat.pos_pow_of_pos _ (by norm_num)
        have hbpos : (0 : Nat) < 2 ^ cfg.bhrSize := Nat.pos_pow_of_pos _ (by norm_num)
        have hsh : (op.pcAddress >>> 3 % 2 ^ cfg.predictorSize %
            2 ^ (cfg.predictorSize - cfg.bhrSize)) <<< cfg.bhrSize <
            2 ^ cfg.predictorSize := by
          rw [Nat.shiftLeft_eq]
          calc op.pcAddress >>> 3 % 2 ^ cfg.predictorSize %
                2 ^ (cfg.predictorSize - cfg.bhrSize) * 2 ^ cfg.bhrSize
              < 2 ^ (cfg.predictorSize - cfg.bhrSize) * 2 ^ cfg.bhrSize :=
                mul_lt_mul_of_pos_right (Nat.mod_lt _ hsub) hbpos
            _ = 2 ^ cfg.predictorSize := by
                rw [← pow_add]
                congr 1
                omega
        have hbh : bhr % 2 ^ cfg.bhrSize < 2 ^ cfg.predictorSize :=
          lt_of_lt_of_le (Nat.mod_lt _ hbpos) (Nat.pow_le_pow_right (by norm_num) hble)
        exact Nat.or_lt_two_pow hsh hbh
    · simp [predIndex, h0, h2] at h
      subst h
      exact hpos

/-- Witness for C10 on the concrete counter-only configuration. -/
theorem C10_pred_index_in_bounds_witness :
    0 < 2 ^ bCfg.predictorSize ∧
      (branchInitState bCfg).predictorTable.length = 2 ^ bCfg.predictorSize :=
  C10_pred_index_in_bounds bCfg 0 (bOp 0 100) 0 (by decide)

/-- Helper: the LRU victim scan returns the position of the first invalid
line, offset by the running loop index, regardless of the accumulators. -/
theorem fv_LRU_first_invalid (ls : List cache_line) (i : Nat) (m v : Int) (k : Nat)
    (hk : k < ls.length)
    (hvalid : ∀ j < k, (ls.getD j default).valid = true)
    (hinv : (ls.getD k default).valid = false) :
    fv_LRU ls i m v = ((i : Int) + (k : Int)) := by
  induction ls generalizing i m v k with
  | nil => simp at hk
  | cons l t ih =>
    cases k with
    | zero =>
      have hl : l.valid = false := by simpa using hinv
      simp [fv_LRU, hl]
    | succ n =>
      have hl : l.valid = true := by simpa using hvalid 0 (Nat.succ_pos n)
      have hvalid2 : ∀ j < n, (t.getD j default).valid = true := by
        intro j hj
        simpa using hvalid (j + 1) (by omega)
      have hinv2 : (t.getD n default).valid = false := by simpa using hinv
      have hk2 : n < t.length := by simpa using hk
      have hstep : fv_LRU (l :: t) i m v =
          (if l.LRU_counter > m then fv_LRU t (i + 1) l.LRU_counter (i : Int)
           else fv_LRU t (i + 1) m v) := by
        simp [fv_LRU, hl]
      rw [hstep]
      by_cases hgt : l.LRU_counter > m
      · rw [if_pos hgt, ih (i + 1) l.LRU_counter (i : Int) n hk2 hvalid2 hinv2]
        push_cast
        ring
      · rw [if_neg hgt, ih (i + 1) m v n hk2 hvalid2 hinv2]
        push_cast
        ring

/-- Helper: on an all-valid list the LRU victim scan either keeps the
incoming accumulator, when no counter exceeds it, or returns the first
position attaining the maximum counter, which then also exceeds the
accumulator. -/
theorem fv_LRU_all_valid (ls : List cache_line) (i : Nat) (m v : Int)
    (hvalid : ∀ j < ls.length, (ls.getD j default).valid = true) :
    (fv_LRU ls i m v = v ∧ ∀ j < ls.length, (ls.getD j default).LRU_counter ≤ m) ∨
    (∃ k, k < ls.length ∧ fv_LRU ls i m v = ((i : Int) + (k : Int)) ∧
      m < (ls.getD k default).LRU_counter ∧
      (∀ j < ls.length,
        (ls.getD j default).LRU_counter ≤ (ls.getD k default).LRU_counter) ∧
      (∀ j < k, (ls.getD j default).LRU_counter < (ls.getD k default).LRU_counter)) := by
  induction ls generalizing i m v with
  | nil =>
    left
    exact ⟨rfl, by intro j hj; simp at hj⟩
  | cons l t ih =>
    have hl : l.valid = true := by simpa using hvalid 0 (Nat.succ_pos t.length)
    have hvalid2 : ∀ j < t.length, (t.getD j default).valid = true := by
      intro j hj
      simpa using hvalid (j + 1) (by simpa using Nat.succ_lt_succ hj)
    have hstep : ∀ m2 v2 : Int, fv_LRU (l :: t) i m2 v2 =
        (if l.LRU_counter > m2 then fv_LRU t (i + 1) l.LRU_counter (i : Int)
         else fv_LRU t (i + 1) m2 v2) := by
      intro m2 v2
      simp [fv_LRU, hl]
    by_cases hgt : l.LRU_counter > m
    · rcases ih (i + 1) l.LRU_counter (i : Int) hvalid2 with
        ⟨heq, hb⟩ | ⟨k, hk, heq, hm, hmax, hfirst⟩
      · right
        refine ⟨0, Nat.succ_pos _, ?_, by simpa using hgt, ?_, ?_⟩
        · rw [hstep m v, if_pos hgt, heq]
          simp
        · intro j hj
          cases j with
          | zero => simp
          | succ n => simpa using hb n (by simpa using hj)
        · intro j hj
          exact absurd hj (Nat.not_lt_zero j)
      · right
        refine ⟨k + 1, by simpa using hk, ?_, ?_, ?_, ?_⟩
        · rw [hstep m v, if_pos hgt, heq]
          push_cast
          ring
        · have h2 : m < (t.getD k default).LRU_counter := lt_trans hgt hm
          simpa using h2
        · intro j hj
          cases j with
          | zero => simpa using le_of_lt hm
          | succ n =>
            have := hmax n (by simpa using hj)
            simpa using this
        · intro j hj
          cases j with
          | zero => simpa using hm
          | succ n =>
            have := hfirst n (by omega)
            simpa using this
    · have hle : l.LRU_counter ≤ m := not_lt.mp hgt
      rcases ih (i + 1) m v hvalid2 with
        ⟨heq, hb⟩ | ⟨k, hk, heq, hm, hmax, hfirst⟩
      · left
        refine ⟨?_, ?_⟩
        · rw [hstep m v, if_neg hgt, heq]
        · intro j hj
          cases j with
          | zero => simpa using hle
          | succ n => simpa using hb n (by simpa using hj)
      · right
        refine ⟨k + 1, by simpa using hk, ?_, ?_, ?_, ?_⟩
        · rw [hstep m v, if_neg hgt, heq]
          push_cast
          ring
        · simpa using hm
        · intro j hj
          cases j with
          | zero => simpa using le_of_lt (lt_of_le_of_lt hle hm)
          | succ n => simpa using hmax n (by simpa using hj)
        · intro j hj
          cases j with
          | zero => simpa using lt_of_le_of_lt hle hm
          | succ n => simpa using hfirst n (by omega)

/-- Helper: `update_LRU` preserves the length of the set. -/
theorem update_LRU_length (lines : List cache_line) (w : Nat) :
    (update_LRU lines w).length = lines.length := by
  simp [update_LRU]

/-- Helper: `update_LRU` resets the accessed way's counter to 0 and leaves
its other fields alone. -/
theorem update_LRU_at_way (lines : List cache_line) (w : Nat) (hw : w < lines.length) :
    (update_LRU lines w).getD w default =
      { lines.getD w default with LRU_counter := 0 } := by
  have hb : bump (lines.getD w default).LRU_counter (lines.getD w default) =
      lines.getD w default := by
    unfold bump
    rw [if_neg]
    intro hcon
    exact lt_irrefl _ hcon.2
  simp only [update_LRU]
  rw [getD_set_same _ _ _ _ (by simpa using hw),
    getD_map_of_lt _ _ _ default _ hw, hb]

/-- Helper: `update_LRU` applies the increment guard to every other
position. -/
theorem update_LRU_at_other (lines : List cache_line) (w i : Nat)
    (hi : i < lines.length) (hne : i ≠ w) :
    (update_LRU lines w).getD i default =
      bump (lines.getD w default).LRU_counter (lines.getD i default) := by
  simp only [update_LRU]
  rw [getD_set_other _ _ _ _ _ (fun he => hne he.symm),
    getD_map_of_lt _ _ _ default _ hi]

/-- Claim C6: under LRU, an access to way w increments the recency counter
of exactly the other valid lines whose counter is strictly below w's
previous counter and then resets w's counter to 0; victim selection
returns the first invalid way when one exists, and otherwise the valid
way with the largest recency counter, ties broken by the lowest index. -/
theorem C6_lru_update_and_victim (lines : List cache_line) (w : Nat)
    (hw : w < lines.length) :
    ((update_LRU lines w).length = lines.length ∧
     (update_LRU lines w).getD w default =
       { lines.getD w default with LRU_counter := 0 } ∧
     ∀ i < lines.length, i ≠ w →
       (update_LRU lines w).getD i default =
         (if (lines.getD i default).valid = true ∧
             (lines.getD i default).LRU_counter < (lines.getD w default).LRU_counter
          then { lines.getD i default with
                 LRU_counter := (lines.getD i default).LRU_counter + 1 }
          else lines.getD i default)) ∧
    ((∀ k < lines.length, (∀ j < k, (lines.getD j default).valid = true) →
        (lines.getD k default).valid = false → find_victim_LRU lines = (k : Int)) ∧
     ((∀ j < lines.length, (lines.getD j default).valid = true) →
      (∀ j < lines.length, 0 ≤ (lines.getD j default).LRU_counter) →
      ∃ vic, vic < lines.length ∧ find_victim_LRU lines = (vic : Int) ∧
        (∀ j < lines.length,
          (lines.getD j default).LRU_counter ≤ (lines.getD vic default).LRU_counter) ∧
        (∀ j < vic,
          (lines.getD j default).LRU_counter < (lines.getD vic default).LRU_counter))) := by
  refine ⟨⟨update_LRU_length lines w, update_LRU_at_way lines w hw, ?_⟩, ?_, ?_⟩
  · intro i hi hne
    rw [update_LRU_at_other lines w i hi hne]
    rfl
  · intro k hk hval hinv
    have := fv_LRU_first_invalid lines 0 (-1) (-1) k hk hval hinv
    unfold find_victim_LRU
    rw [this]
    simp
  · intro hval hcnt
    rcases fv_LRU_all_valid lines 0 (-1) (-1) hval with ⟨_, hb⟩ | ⟨k, hk, heq, _, hmax, hfirst⟩
    · have h0 : (0 : Nat) < lines.length := Nat.lt_of_le_of_lt (Nat.zero_le w) hw
      have := hb 0 h0
      have h00 := hcnt 0 h0
      omega
    · refine ⟨k, hk, ?_, hmax, hfirst⟩
      unfold find_victim_LRU
      rw [heq]
      simp

/-- Witness for C6 on a concrete two-way all-valid set with counters
1 and 0, accessing way 0. -/
theorem C6_lru_update_and_victim_witness :
    ((update_LRU linesW6 0).length = linesW6.length ∧
     (update_LRU linesW6 0).getD 0 default =
       { linesW6.getD 0 default with LRU_counter := 0 } ∧
     ∀ i < linesW6.length, i ≠ 0 →
       (update_LRU linesW6 0).getD i default =
         (if (linesW6.getD i default).valid = true ∧
             (linesW6.getD i default).LRU_counter < (linesW6.getD 0 default).LRU_counter
          then { linesW6.getD i default with
                 LRU_counter := (linesW6.getD i default).LRU_counter + 1 }
          else linesW6.getD i default)) ∧
    ((∀ k < linesW6.length, (∀ j < k, (linesW6.getD j default).valid = true) →
        (linesW6.getD k default).valid = false → find_victim_LRU linesW6 = (k : Int)) ∧
     ((∀ j < linesW6.length, (linesW6.getD j default).valid = true) →
      (∀ j < linesW6.length, 0 ≤ (linesW6.getD j default).LRU_counter) →
      ∃ vic, vic < linesW6.length ∧ find_victim_LRU linesW6 = (vic : Int) ∧
        (∀ j < linesW6.length,
          (linesW6.getD j default).LRU_counter ≤ (linesW6.getD vic default).LRU_counter) ∧
        (∀ j < vic,
          (linesW6.getD j default).LRU_counter < (linesW6.getD vic default).LRU_counter))) :=
  C6_lru_update_and_victim linesW6 0 (by decide)

/-- Helper: the RRIP increment loop preserves the length of the set. -/
theorem incrOthers_length (B w i : Nat) (ls : List cache_line) :
    (incrOthers B w i ls).length = ls.length := by
  induction ls generalizing i with
  | nil => rfl
  | cons l t ih => simp [incrOthers, ih]

/-- Helper: the RRIP increment loop applies its guard pointwise, the C loop
index being the running offset plus the list position. -/
theorem incrOthers_getD (B w : Nat) (i j : Nat) (ls : List cache_line)
    (hj : j < ls.length) :
    (incrOthers B w i ls).getD j default =
      (if i + j ≠ w ∧ (ls.getD j default).valid = true ∧
          (ls.getD j default).RRPV < rripMax B
       then { ls.getD j default with RRPV := (ls.getD j default).RRPV + 1 }
       else ls.getD j default) := by
  induction ls generalizing i j with
  | nil => simp at hj
  | cons l t ih =>
    cases j with
    | zero => simp [incrOthers]
    | succ n =>
      have hrec := ih (i + 1) n (by simpa using hj)
      have harith : i + 1 + n = i + (n + 1) := by omega
      rw [harith] at hrec
      simpa [incrOthers] using hrec

/-- Claim C7: under RRIP with B bits, a hit sets the accessed line's RRPV
to 0 and changes nothing else; a miss sets the victim's RRPV to
`2^(B-1) - 1` and increments every other in-range valid line's RRPV,
saturating at `2^B - 1`. -/
theorem C7_rrip_update (B : Nat) (lines : List cache_line) (w : Nat)
    (hB : 1 ≤ B) (hw : w < lines.length)
    (hrange : ∀ j < lines.length, (lines.getD j default).RRPV ≤ rripMax B) :
    ((update_RRIP B lines w true).getD w default =
       { lines.getD w default with RRPV := 0 } ∧
     ∀ i < lines.length, i ≠ w →
       (update_RRIP B lines w true).getD i default = lines.getD i default) ∧
    ((update_RRIP B lines w false).getD w default =
       { lines.getD w default with RRPV := 2 ^ (B - 1) - 1 } ∧
     ∀ i < lines.length, i ≠ w →
       (update_RRIP B lines w false).getD i default =
         (if (lines.getD i default).valid = true
          then { lines.getD i default with
                 RRPV := min ((lines.getD i default).RRPV + 1) (rripMax B) }
          else lines.getD i default)) := by
  have hlenf : (lines.set w
      { lines.getD w default with RRPV := 2 ^ (B - 1) - 1 }).length = lines.length := by
    simp
  refine ⟨⟨?_, ?_⟩, ?_, ?_⟩
  · simp only [update_RRIP, if_pos]
    exact getD_set_same _ _ _ _ hw
  · intro i hi hne
    simp only [update_RRIP, if_pos]
    exact getD_set_other _ _ _ _ _ (fun he => hne he.symm)
  · simp only [update_RRIP, if_neg Bool.false_ne_true]
    have h1 := incrOthers_getD B w 0 w
      (lines.set w { lines.getD w default with RRPV := 2 ^ (B - 1) - 1 })
      (by rw [hlenf]; exact hw)
    rw [h1, if_neg (by simp), getD_set_same _ _ _ _ hw]
  · intro i hi hne
    simp only [update_RRIP, if_neg Bool.false_ne_true]
    have h1 := incrOthers_getD B w 0 i
      (lines.set w { lines.getD w default with RRPV := 2 ^ (B - 1) - 1 })
      (by rw [hlenf]; exact hi)
    have h2 : (lines.set w
        { lines.getD w default with RRPV := 2 ^ (B - 1) - 1 }).getD i default =
        lines.getD i default :=
      getD_set_other _ _ _ _ _ (fun he => hne he.symm)
    rw [h1, h2]
    by_cases hv : (lines.getD i default).valid = true
    · rw [if_pos hv]
      by_cases hlt : (lines.getD i default).RRPV < rripMax B
      · rw [if_pos ⟨by simpa using hne, hv, hlt⟩]
        have : min ((lines.getD i default).RRPV + 1) (rripMax B) =
            (lines.getD i default).RRPV + 1 :=
          min_eq_left (by omega)
        rw [this]
      · rw [if_neg (by intro hcon; exact hlt hcon.2.2)]
        have heq : (lines.getD i default).RRPV = rripMax B :=
          le_antisymm (hrange i hi) (not_lt.mp hlt)
        have : min ((lines.getD i default).RRPV + 1) (rripMax B) =
            (lines.getD i default).RRPV := by
          rw [heq]
          exact min_eq_right (by omega)
        rw [this]
    · rw [if_neg hv, if_neg (by intro hcon; exact hv hcon.2.1)]

/-- Witness for C7 on a concrete three-way set with RRPV_bits 2, accessing
way 0. -/
theorem C7_rrip_update_witness :
    ((update_RRIP 2 linesW7 0 true).getD 0 default =
       { linesW7.getD 0 default with RRPV := 0 } ∧
     ∀ i < linesW7.length, i ≠ 0 →
       (update_RRIP 2 linesW7 0 true).getD i default = linesW7.getD i default) ∧
    ((update_RRIP 2 linesW7 0 false).getD 0 default =
       { linesW7.getD 0 default with RRPV := 2 ^ (2 - 1) - 1 } ∧
     ∀ i < linesW7.length, i ≠ 0 →
       (update_RRIP 2 linesW7 0 false).getD i default =
         (if (linesW7.getD i default).valid = true
          then { linesW7.getD i default with
                 RRPV := min ((linesW7.getD i default).RRPV + 1) (rripMax 2) }
          else linesW7.getD i default)) :=
  C7_rrip_update 2 linesW7 0 (by decide) (by decide) (by decide)

/-- Helper: `projEq` is reflexive. -/
theorem projEq_refl (l : List cache_line) : projEq l l :=
  ⟨rfl, fun _ _ => rfl⟩

/-- Helper: `projEq` is transitive. -/
theorem projEq_trans {l1 l2 l3 : List cache_line} (h1 : projEq l1 l2)
    (h2 : projEq l2 l3) : projEq l1 l3 := by
  obtain ⟨ha, hb⟩ := h1
  obtain ⟨hc, hd⟩ := h2
  exact ⟨ha.trans hc, fun i hi => (hb i hi).trans (hd i (ha ▸ hi))⟩

/-- Helper: `bump` changes only the recency counter. -/
theorem proj_bump (t : Int) (l : cache_line) : proj (bump t l) = proj l := by
  unfold bump
  split <;> rfl

/-- Helper: `update_LRU` preserves validity and tags pointwise. -/
theorem update_LRU_projEq (lines : List cache_line) (w : Nat) :
    projEq (update_LRU lines w) lines := by
  refine ⟨update_LRU_length lines w, ?_⟩
  intro i hi
  have hi2 : i < lines.length := by rw [← update_LRU_length lines w]; exact hi
  by_cases he : i = w
  · subst he
    rw [update_LRU_at_way lines i hi2]
    rfl
  · rw [update_LRU_at_other lines w i hi2 he, proj_bump]

/-- Helper: `update_RRIP` preserves the length of the set. -/
theorem update_RRIP_length (B : Nat) (lines : List cache_line) (w : Nat) (h : Bool) :
    (update_RRIP B lines w h).length = lines.length := by
  cases h
  · simp only [update_RRIP, if_neg Bool.false_ne_true]
    rw [incrOthers_length]
    simp
  · simp only [update_RRIP, if_pos rfl]
    simp

/-- Helper: `update_RRIP` preserves validity and tags pointwise. -/
theorem update_RRIP_projEq (B : Nat) (lines : List cache_line) (w : Nat) (h : Bool) :
    projEq (update_RRIP B lines w h) lines := by
  refine ⟨update_RRIP_length B lines w h, ?_⟩
  intro i hi
  have hi2 : i < lines.length := by rw [← update_RRIP_length B lines w h]; exact hi
  cases h
  · simp only [update_RRIP, if_neg Bool.false_ne_true]
    have hlenf : (lines.set w
        { lines.getD w default with RRPV := 2 ^ (B - 1) - 1 }).length = lines.length := by
      simp
    rw [incrOthers_getD B w 0 i _ (by rw [hlenf]; exact hi2)]
    have hproj : proj ((lines.set w
        { lines.getD w default with RRPV := 2 ^ (B - 1) - 1 }).getD i default) =
        proj (lines.getD i default) := by
      rw [getD_set_lt _ _ _ _ _ hi2]
      by_cases he : i = w
      · rw [if_pos he]
        subst he
        rfl
      · rw [if_neg he]
    split
    · exact hproj
    · exact hproj
  · show proj ((lines.set w { lines.getD w default with RRPV := 0 }).getD i default) =
        proj (lines.getD i default)
    rw [getD_set_lt _ _ _ _ _ hi2]
    by_cases he : i = w
    · rw [if_pos he]
      subst he
      rfl
    · rw [if_neg he]

/-- Helper: the RRIP aging pass preserves validity and tags pointwise. -/
theorem ageAll_projEq (lines : List cache_line) : projEq (ageAll lines) lines := by
  refine ⟨by simp [ageAll], ?_⟩
  intro i hi
  have hi2 : i < lines.length := by simpa [ageAll] using hi
  unfold ageAll
  rw [getD_map_of_lt _ _ _ default _ hi2]
  split <;> rfl

/-- Helper: a successful RRIP victim search returns lines with the same
validity and tags as its input (only RRPVs are aged). -/
theorem find_victim_RRIP_projEq (B fuel : Nat) (lines aged : List cache_line)
    (e : Nat) (h : find_victim_RRIP B fuel lines = some (e, aged)) :
    projEq aged lines := by
  induction fuel generalizing lines with
  | zero => simp [find_victim_RRIP] at h
  | succ n ih =>
    simp only [find_victim_RRIP] at h
    cases hscan : scanMax B 0 lines with
    | some i =>
      rw [hscan] at h
      injection h with h1
      injection h1 with he ha
      subst ha
      exact projEq_refl _
    | none =>
      rw [hscan] at h
      exact projEq_trans (ih (ageAll lines) h) (ageAll_projEq lines)

/-- Helper: a successful victim search under either policy returns lines
with the same validity and tags as its input. -/
theorem find_victim_projEq (cfg : Config) (fuel : Nat) (lines aged : List cache_line)
    (e : Nat) (h : find_victim cfg fuel lines = some (e, aged)) :
    projEq aged lines := by
  simp only [find_victim] at h
  by_cases hr : cfg.use_RRIP
  · rw [if_pos hr] at h
    exact find_victim_RRIP_projEq _ _ _ _ _ h
  · rw [if_neg hr] at h
    split at h
    · exact absurd h (by simp)
    · injection h with h1
      injection h1 with he ha
      subst ha
      exact projEq_refl _

/-- Helper: the hit scan depends only on validity and tags. -/
theorem findHit_congr (t : Nat) (l1 l2 : List cache_line) (hpe : projEq l1 l2) :
    ∀ i, findHit t i l1 = findHit t i l2 := by
  induction l1 generalizing l2 with
  | nil =>
    intro i
    obtain ⟨hlen, _⟩ := hpe
    cases l2 with
    | nil => rfl
    | cons b t2 => simp at hlen
  | cons a t1 ih =>
    intro i
    obtain ⟨hlen, hp⟩ := hpe
    cases l2 with
    | nil => simp at hlen
    | cons b t2 =>
      have h0 : proj a = proj b := by simpa using hp 0 (Nat.succ_pos _)
      have hva : a.valid = b.valid := congrArg Prod.fst h0
      have hta : a.tag = b.tag := congrArg Prod.snd h0
      have hrec : projEq t1 t2 := by
        refine ⟨by simpa using hlen, ?_⟩
        intro j hj
        simpa using hp (j + 1) (by simpa using Nat.succ_lt_succ hj)
      unfold findHit
      rw [hva, hta]
      by_cases hc : b.valid = true ∧ b.tag = t
      · rw [if_pos hc, if_pos hc]
      · rw [if_neg hc, if_neg hc]
        exact ih t2 hrec (i + 1)

/-- Helper: a failed hit scan means no valid line carries the tag. -/
theorem findHit_none_char (t : Nat) (ls : List cache_line) (i0 : Nat)
    (h : findHit t i0 ls = none) :
    ∀ j < ls.length,
      ¬((ls.getD j default).valid = true ∧ (ls.getD j default).tag = t) := by
  induction ls generalizing i0 with
  | nil =>
    intro j hj
    simp at hj
  | cons l t2 ih =>
    unfold findHit at h
    by_cases hc : l.valid = true ∧ l.tag = t
    · rw [if_pos hc] at h
      exact absurd h (by simp)
    · rw [if_neg hc] at h
      intro j hj
      cases j with
      | zero => simpa using hc
      | succ n =>
        have := ih (i0 + 1) h n (by simpa using hj)
        simpa using this

/-- Helper: the tag-uniqueness invariant transfers across `projEq`. -/
theorem setInv_of_projEq (l1 l2 : List cache_line) (hpe : projEq l1 l2)
    (hinv : setInv l2) : setInv l1 := by
  obtain ⟨hlen, hp⟩ := hpe
  intro i hi j hj hne hvi hvj
  have e1 : (l1.getD i default).valid = (l2.getD i default).valid :=
    congrArg Prod.fst (hp i hi)
  have e2 : (l1.getD j default).valid = (l2.getD j default).valid :=
    congrArg Prod.fst (hp j hj)
  have f1 : (l1.getD i default).tag = (l2.getD i default).tag :=
    congrArg Prod.snd (hp i hi)
  have f2 : (l1.getD j default).tag = (l2.getD j default).tag :=
    congrArg Prod.snd (hp j hj)
  have := hinv i (hlen ▸ hi) j (hlen ▸ hj) hne (e1 ▸ hvi) (e2 ▸ hvj)
  rw [f1, f2]
  exact this

/-- Helper: filling the victim with a tag carried by no valid line keeps
the tag-uniqueness invariant. -/
theorem setInv_fill (aged : List cache_line) (e : Nat) (t : Nat)
    (hinv : setInv aged)
    (hmiss : ∀ j < aged.length,
      ¬((aged.getD j default).valid = true ∧ (aged.getD j default).tag = t)) :
    setInv (aged.set e { aged.getD e default with valid := true, tag := t }) := by
  intro i hi j hj hne hvi hvj
  rw [List.length_set] at hi hj
  rw [getD_set_lt _ _ _ _ _ hi] at hvi ⊢
  rw [getD_set_lt _ _ _ _ _ hj] at hvj ⊢
  by_cases hie : i = e
  · rw [if_pos hie] at hvi ⊢
    by_cases hje : j = e
    · exact absurd (hie.trans hje.symm) hne
    · rw [if_neg hje] at hvj ⊢
      intro hcon
      exact hmiss j hj ⟨hvj, hcon.symm⟩
  · rw [if_neg hie] at hvi ⊢
    by_cases hje : j = e
    · rw [if_pos hje] at hvj ⊢
      intro hcon
      exact hmiss i hi ⟨hvi, hcon⟩
    · rw [if_neg hje] at hvj ⊢
      exact hinv i hi j hj hne hvi hvj

/-- Helper: every set read out of an invariant-satisfying cache satisfies
the set invariant (out-of-range reads give the empty set). -/
theorem cacheInv_getD (st : CacheState) (h : cacheInv st) (i : Nat) :
    setInv (st.sets.getD i []) := by
  by_cases hi : i < st.sets.length
  · exact h _ (getD_mem_of_lt _ _ _ hi)
  · rw [getD_of_le _ _ _ (Nat.le_of_not_lt hi)]
    intro j hj
    simp at hj

/-- Helper: the set-local part of `memoryRequest` preserves the
tag-uniqueness invariant of the accessed set. -/
theorem accessSet_preserves_setInv (cfg : Config) (fuel : Nat) (ct : Nat)
    (lines : List cache_line) (hit : Bool) (nl : List cache_line)
    (hinv : setInv lines) (h : accessSet cfg fuel ct lines = some (hit, nl)) :
    setInv nl := by
  simp only [accessSet] at h
  cases hfh : findHit ct 0 lines with
  | some way =>
    rw [hfh] at h
    injection h with h1
    injection h1 with hh hnl
    rw [← hnl]
    split
    · exact setInv_of_projEq _ _ (update_RRIP_projEq _ _ _ _) hinv
    · exact setInv_of_projEq _ _ (update_LRU_projEq _ _) hinv
  | none =>
    rw [hfh] at h
    cases hfv : find_victim cfg fuel lines with
    | none =>
      rw [hfv] at h
      exact absurd h (by simp)
    | some pr =>
      obtain ⟨e, aged⟩ := pr
      rw [hfv] at h
      injection h with h1
      injection h1 with hh hnl
      have hpe : projEq aged lines := find_victim_projEq cfg fuel lines aged e hfv
      have hlen : aged.length = lines.length := hpe.1
      have hs1 : setInv aged := setInv_of_projEq _ _ hpe hinv
      have hmiss0 := findHit_none_char ct lines 0 hfh
      have hmiss : ∀ j < aged.length,
          ¬((aged.getD j default).valid = true ∧ (aged.getD j default).tag = ct) := by
        intro j hj hcon
        have e1 : (aged.getD j default).valid = (lines.getD j default).valid :=
          congrArg Prod.fst (hpe.2 j hj)
        have e2 : (aged.getD j default).tag = (lines.getD j default).tag :=
          congrArg Prod.snd (hpe.2 j hj)
        exact hmiss0 j (hlen ▸ hj) ⟨e1 ▸ hcon.1, e2 ▸ hcon.2⟩
      have hs2 : setInv
          (aged.set e { aged.getD e default with valid := true, tag := ct }) :=
        setInv_fill aged e ct hs1 hmiss
      rw [← hnl]
      split
      · exact setInv_of_projEq _ _ (update_RRIP_projEq _ _ _ _) hs2
      · exact setInv_of_projEq _ _ (update_LRU_projEq _ _) hs2

/-- Claim C8: `memoryRequest` preserves the invariant that within each set
at most one line is simultaneously valid and holding any given tag — for
hits and misses, under either policy, whatever the permission answer. -/
theorem C8_memoryRequest_preserves_inv (cfg : Config) (fuel : Nat) (op : trace_op)
    (processorNum tag : Int) (cb perm : Nat) (st : CacheState) (hit : Bool)
    (st1 : CacheState) (hinv : cacheInv st)
    (hreq : memoryRequest cfg fuel op processorNum tag cb perm st = some (hit, st1)) :
    cacheInv st1 := by
  simp only [memoryRequest] at hreq
  cases hacc : accessSet cfg fuel (get_tag cfg (blockAlign cfg op.memAddress))
      (st.sets.getD (get_set_index cfg (blockAlign cfg op.memAddress)) []) with
  | none =>
    rw [hacc] at hreq
    exact absurd hreq (by simp)
  | some p =>
    obtain ⟨hit2, nl⟩ := p
    rw [hacc] at hreq
    injection hreq with h1
    injection h1 with hh hst1
    have hnl : setInv nl :=
      accessSet_preserves_setInv _ _ _ _ _ _
        (cacheInv_getD st hinv (get_set_index cfg (blockAlign cfg op.memAddress))) hacc
    have hsets : st1.sets =
        st.sets.set (get_set_index cfg (blockAlign cfg op.memAddress)) nl := by
      rw [← hst1]
      by_cases hp : perm = 1
      · rw [if_pos hp]
      · rw [if_neg hp]
    intro s hs
    rw [hsets] at hs
    rcases List.mem_or_eq_of_mem_set hs with hhs | rfl
    · exact hinv s hhs
    · exact hnl

/-- Witness for C8: the first scenario-A access, granted immediately,
starting from the fresh cache. -/
theorem C8_memoryRequest_preserves_inv_witness : cacheInv stMiss1r :=
  C8_memoryRequest_preserves_inv cfgA 1 (opAt 0) 0 0 0 1 stA0 false stMiss1r
    (by
      intro s hs i hi j hj hne hvi hvj
      simp [stA0] at hs
      subst hs
      have hval : (([line0, line0] : List cache_line).getD i default).valid = false := by
        match i with
        | 0 => rfl
        | 1 => rfl
        | n + 2 => rfl
      rw [hval] at hvi
      exact absurd hvi (by simp)) (by decide)

/-- Claim C9: a request that hits leaves a state in which immediately
re-requesting the same address from the same processor hits again, and
neither request changes any set other than the one the address indexes. -/
theorem C9_hit_idempotent (cfg : Config) (fuel fuel2 : Nat) (op : trace_op)
    (p tag tag2 : Int) (cb cb2 perm perm2 : Nat) (st st1 : CacheState)
    (h1 : memoryRequest cfg fuel op p tag cb perm st = some (true, st1)) :
    ∃ st2, memoryRequest cfg fuel2 op p tag2 cb2 perm2 st1 = some (true, st2) ∧
      ∀ j, j ≠ get_set_index cfg (blockAlign cfg op.memAddress) →
        st1.sets.getD j [] = st.sets.getD j [] ∧
        st2.sets.getD j [] = st.sets.getD j [] := by
  simp only [memoryRequest] at h1
  cases hacc : accessSet cfg fuel (get_tag cfg (blockAlign cfg op.memAddress))
      (st.sets.getD (get_set_index cfg (blockAlign cfg op.memAddress)) []) with
  | none =>
    rw [hacc] at h1
    exact absurd h1 (by simp)
  | some pr =>
    obtain ⟨hit2, nl⟩ := pr
    rw [hacc] at h1
    injection h1 with h2
    injection h2 with hh hst1
    subst hh
    obtain ⟨way, hfh, hnl⟩ : ∃ way,
        findHit (get_tag cfg (blockAlign cfg op.memAddress)) 0
          (st.sets.getD (get_set_index cfg (blockAlign cfg op.memAddress)) []) =
            some way ∧
        nl = (if cfg.use_RRIP then
                update_RRIP cfg.RRPV_bits
                  (st.sets.getD (get_set_index cfg (blockAlign cfg op.memAddress)) [])
                  way true
              else
                update_LRU
                  (st.sets.getD (get_set_index cfg (blockAlign cfg op.memAddress)) [])
                  way) := by
      simp only [accessSet] at hacc
      cases hf : findHit (get_tag cfg (blockAlign cfg op.memAddress)) 0
          (st.sets.getD (get_set_index cfg (blockAlign cfg op.memAddress)) []) with
      | some way =>
        rw [hf] at hacc
        injection hacc with h3
        injection h3 with h4 h5
        exact ⟨way, rfl, h5.symm⟩
      | none =>
        rw [hf] at hacc
        cases hfv : find_victim cfg fuel
            (st.sets.getD (get_set_index cfg (blockAlign cfg op.memAddress)) []) with
        | none =>
          rw [hfv] at hacc
          exact absurd hacc (by simp)
        | some q =>
          obtain ⟨e, aged⟩ := q
          rw [hfv] at hacc
          injection hacc with h3
          injection h3 with h4 h5
          exact absurd h4 (by simp)
    have hsilt : get_set_index cfg (blockAlign cfg op.memAddress) < st.sets.length := by
      by_contra hge
      rw [getD_of_le _ _ _ (Nat.le_of_not_lt hge)] at hfh
      simp [findHit] at hfh
    have hpe : projEq nl
        (st.sets.getD (get_set_index cfg (blockAlign cfg op.memAddress)) []) := by
      rw [hnl]
      split
      · exact update_RRIP_projEq _ _ _ _
      · exact update_LRU_projEq _ _
    have hst1sets : st1.sets =
        st.sets.set (get_set_index cfg (blockAlign cfg op.memAddress)) nl := by
      rw [← hst1]
      by_cases hp2 : perm = 1
      · rw [if_pos hp2]
      · rw [if_neg hp2]
    have hlines1 :
        st1.sets.getD (get_set_index cfg (blockAlign cfg op.memAddress)) [] = nl := by
      rw [hst1sets]
      exact getD_set_same _ _ _ _ hsilt
    have hfh2 : findHit (get_tag cfg (blockAlign cfg op.memAddress)) 0 nl = some way := by
      rw [findHit_congr _ _ _ hpe 0]
      exact hfh
    have hacc2 : accessSet cfg fuel2 (get_tag cfg (blockAlign cfg op.memAddress)) nl =
        some (true, (if cfg.use_RRIP then update_RRIP cfg.RRPV_bits nl way true
                     else update_LRU nl way)) := by
      simp only [accessSet]
      rw [hfh2]
    have h2 : memoryRequest cfg fuel2 op p tag2 cb2 perm2 st1 =
        some (true,
          if perm2 = 1 then
            { st1 with
              sets := st1.sets.set (get_set_index cfg (blockAlign cfg op.memAddress))
                (if cfg.use_RRIP then update_RRIP cfg.RRPV_bits nl way true
                 else update_LRU nl way),
              readyReq :=
                (⟨tag2, blockAlign cfg op.memAddress, p, cb2⟩ : pendingRequest)
                  :: st1.readyReq }
          else
            { st1 with
              sets := st1.sets.set (get_set_index cfg (blockAlign cfg op.memAddress))
                (if cfg.use_RRIP then update_RRIP cfg.RRPV_bits nl way true
                 else update_LRU nl way),
              pendReq :=
                (⟨tag2, blockAlign cfg op.memAddress, p, cb2⟩ : pendingRequest)
                  :: st1.pendReq }) := by
      simp only [memoryRequest]
      rw [hlines1, hacc2]
    refine ⟨_, h2, ?_⟩
    intro j hj
    constructor
    · rw [hst1sets]
      exact getD_set_other _ _ _ _ _ (fun he => hj he.symm)
    · have hsets2 : (if perm2 = 1 then
          { st1 with
            sets := st1.sets.set (get_set_index cfg (blockAlign cfg op.memAddress))
              (if cfg.use_RRIP then update_RRIP cfg.RRPV_bits nl way true
               else update_LRU nl way),
            readyReq :=
              (⟨tag2, blockAlign cfg op.memAddress, p, cb2⟩ : pendingRequest)
                :: st1.readyReq }
        else
          { st1 with
            sets := st1.sets.set (get_set_index cfg (blockAlign cfg op.memAddress))
              (if cfg.use_RRIP then update_RRIP cfg.RRPV_bits nl way true
               else update_LRU nl way),
            pendReq :=
              (⟨tag2, blockAlign cfg op.memAddress, p, cb2⟩ : pendingRequest)
                :: st1.pendReq }).sets =
          st1.sets.set (get_set_index cfg (blockAlign cfg op.memAddress))
            (if cfg.use_RRIP then update_RRIP cfg.RRPV_bits nl way true
             else update_LRU nl way) := by
        by_cases hp2 : perm2 = 1
        · rw [if_pos hp2]
        · rw [if_neg hp2]
      rw [hsets2, getD_set_other _ _ _ _ _ (fun he => hj he.symm), hst1sets,
        getD_set_other _ _ _ _ _ (fun he => hj he.symm)]

/-- Witness for C9: a granted load of resident block 0 on the scenario-A
geometry. -/
theorem C9_hit_idempotent_witness :
    ∃ st2, memoryRequest cfgA 1 (opAt 0) 0 0 0 1 stMiss1r = some (true, st2) ∧
      ∀ j, j ≠ get_set_index cfgA (blockAlign cfgA (opAt 0).memAddress) →
        stMiss1r.sets.getD j [] = stHit0.sets.getD j [] ∧
        st2.sets.getD j [] = stHit0.sets.getD j [] :=
  C9_hit_idempotent cfgA 1 1 (opAt 0) 0 0 0 0 0 1 1 stHit0 stMiss1r (by decide)

/-- Claim C3: a not-granted request, followed by a DATA_RECV notification
for the same processor and block address, followed by a tick, invokes the
original callback exactly once with the original processor and request
tag; the request afterwards sits in neither queue.  The uniqueness
hypotheses about the prior queues mirror the documented
at-most-one-outstanding-request contract; the processor-count hypothesis
is the handler's entry assertion. -/
theorem C3_coherence_round_trip (cfg : Config) (fuel : Nat) (op : trace_op)
    (processorCount processorNum tag : Int) (callbackId perm : Nat)
    (st st1 : CacheState) (hit : Bool) (pr : pendingRequest)
    (hperm : perm ≠ 1)
    (hp : processorNum < processorCount)
    (hreq : memoryRequest cfg fuel op processorNum tag callbackId perm st =
      some (hit, st1))
    (hpr : pr = ⟨tag, blockAlign cfg op.memAddress, processorNum, callbackId⟩)
    (hnotpend : pr ∉ st.pendReq)
    (hnotready : ∀ r ∈ st.readyReq,
      (r.callbackId, r.processorNum, r.tag) ≠ (callbackId, processorNum, tag)) :
    ∃ st2, coherCallback processorCount DATA_RECV processorNum
        (blockAlign cfg op.memAddress) st1 = some st2 ∧
      (tick st2).1.count (callbackId, processorNum, tag) = 1 ∧
      pr ∉ (tick st2).2.pendReq ∧ pr ∉ (tick st2).2.readyReq := by
  subst hpr
  simp only [memoryRequest] at hreq
  cases hacc : accessSet cfg fuel (get_tag cfg (blockAlign cfg op.memAddress))
      (st.sets.getD (get_set_index cfg (blockAlign cfg op.memAddress)) []) with
  | none =>
    rw [hacc] at hreq
    exact absurd hreq (by simp)
  | some p2 =>
    obtain ⟨hit2, nl⟩ := p2
    rw [hacc] at hreq
    injection hreq with h1
    injection h1 with hh hst1
    rw [if_neg hperm] at hst1
    have hpend : st1.pendReq =
        (⟨tag, blockAlign cfg op.memAddress, processorNum, callbackId⟩ : pendingRequest)
          :: st.pendReq := by
      rw [← hst1]
    have hready : st1.readyReq = st.readyReq := by
      rw [← hst1]
    have hcc : coherCallback processorCount DATA_RECV processorNum
        (blockAlign cfg op.memAddress) st1 =
        some { st1 with
               pendReq := st.pendReq,
               readyReq :=
                 (⟨tag, blockAlign cfg op.memAddress, processorNum,
                   callbackId⟩ : pendingRequest) :: st1.readyReq } := by
      unfold coherCallback
      rw [hpend]
      rw [if_neg (by simp)]
      rw [if_neg (not_not_intro hp)]
      rw [if_neg (not_not_intro rfl)]
      rw [show removeFirstMatch processorNum (blockAlign cfg op.memAddress)
          ((⟨tag, blockAlign cfg op.memAddress, processorNum,
            callbackId⟩ : pendingRequest) :: st.pendReq) =
          some (⟨tag, blockAlign cfg op.memAddress, processorNum, callbackId⟩,
            st.pendReq) by
        unfold removeFirstMatch
        rw [if_pos ⟨rfl, rfl⟩]]
    refine ⟨_, hcc, ?_, ?_, ?_⟩
    · show (((⟨tag, blockAlign cfg op.memAddress, processorNum,
          callbackId⟩ : pendingRequest) :: st1.readyReq).map
          (fun r => (r.callbackId, r.processorNum, r.tag))).count
          (callbackId, processorNum, tag) = 1
      rw [List.map_cons, List.count_cons]
      have hzero : (st1.readyReq.map
          (fun r => (r.callbackId, r.processorNum, r.tag))).count
          (callbackId, processorNum, tag) = 0 := by
        rw [List.count_eq_zero]
        intro hmem
        rw [List.mem_map] at hmem
        obtain ⟨r, hr, hfr⟩ := hmem
        rw [hready] at hr
        exact hnotready r hr hfr
      rw [hzero]
      simp
    · show (⟨tag, blockAlign cfg op.memAddress, processorNum,
          callbackId⟩ : pendingRequest) ∉ st.pendReq
      exact hnotpend
    · show (⟨tag, blockAlign cfg op.memAddress, processorNum,
          callbackId⟩ : pendingRequest) ∉ ([] : List pendingRequest)
      simp

/-- Witness for C3: a not-granted load at address 0 from processor 0 on
the fresh scenario-A cache, with tag 7 and callback 3. -/
theorem C3_coherence_round_trip_witness :
    ∃ st2, coherCallback 1 DATA_RECV 0 (blockAlign cfgA (opAt 0).memAddress) stMiss1 =
        some st2 ∧
      (tick st2).1.count (3, 0, 7) = 1 ∧
      prW ∉ (tick st2).2.pendReq ∧ prW ∉ (tick st2).2.readyReq :=
  C3_coherence_round_trip cfgA 1 (opAt 0) 1 0 7 3 0 stA0 stMiss1 false prW
    (by decide) (by decide) (by decide) (by decide) (by decide)
    (by intro r hr; simp [stA0] at hr)
